import Mathlib

/-!
Verification of the Server_Xiaozhi voice-assistant gateway against its
natural-language specification.

Each Python function relevant to a claim is shallowly embedded as a Lean
definition translated from the source under `app/`.  Machine floats that
only feed threshold comparisons are modelled as exact rationals; byte
strings are modelled as `List Char` / `List Int`.  Claim-side ("spec")
definitions, used for refinement claims, are named with a `spec` prefix
and are written from the specification's words, to be compared with the
source-side definitions.
-/

namespace Xiaozhi

/-! ## Session VAD state (`app/websocket/session.py`, class `Session`)

`Session.check_vad` keeps three pieces of VAD state on the session:
`_silent_frames`, `_speech_frames` and `_has_speech`.  The thresholds are
keyword parameters of `check_vad`; every caller uses the defaults
(2500 / 2000 / 8 / 10), so they are bound here as constants.  The source
computes `rms` as a float `sqrt(sum_sq / n_samples)`; the branch logic
only compares that value against the thresholds, so the embedding takes
the frame's RMS value as an exact rational parameter. -/

structure VadState where
  silentFrames : Nat
  speechFrames : Nat
  hasSpeech : Bool
deriving DecidableEq, Repr

inductive VadResult where
  | speech
  | silence
  | silenceAfterSpeech
deriving DecidableEq, Repr

def SPEECH_THRESHOLD : ℚ := 2500

def SILENCE_THRESHOLD : ℚ := 2000

def SPEECH_FRAMES_NEEDED : Nat := 8

def SILENCE_FRAMES_NEEDED : Nat := 10

/-- Embeds `Session.check_vad` (session.py lines 89-124), one decoded frame. -/

def check_vad (st : VadState) (rms : ℚ) : VadState × VadResult :=
  if rms > SPEECH_THRESHOLD then
    let speechFrames := st.speechFrames + 1
    let hasSpeech := if speechFrames ≥ SPEECH_FRAMES_NEEDED then true else st.hasSpeech
    ({ silentFrames := 0, speechFrames := speechFrames, hasSpeech := hasSpeech },
      .speech)
  else if rms > SILENCE_THRESHOLD then
    ({ st with silentFrames := 0 },
      if st.hasSpeech then .speech else .silence)
  else
    let silentFrames := st.silentFrames + 1
    ({ st with silentFrames := silentFrames },
      if st.hasSpeech ∧ silentFrames ≥ SILENCE_FRAMES_NEEDED then .silenceAfterSpeech
      else .silence)

/-- The three-band state machine exactly as the specification words it
(spec §4.3): band selection on the frame's RMS, silent/loud counters,
`has_speech` latch at 8 loud frames, `silence_after_speech` exactly when
speech was confirmed and 10 silent frames have accumulated. -/

def specVadStep (st : VadState) (rms : ℚ) : VadState × VadResult :=
  if 2500 < rms then
    -- reset silent counter, increment loud counter; latch has_speech at 8
    let loud := st.speechFrames + 1
    ({ silentFrames := 0, speechFrames := loud,
       hasSpeech := st.hasSpeech ∨ loud ≥ 8 }, .speech)
  else if 2000 < rms ∧ rms ≤ 2500 then
    -- reset silent counter; speech iff already confirmed
    ({ st with silentFrames := 0 },
      if st.hasSpeech then .speech else .silence)
  else
    -- increment silent counter; end-of-utterance exactly on confirmed speech
    ({ st with silentFrames := st.silentFrames + 1 },
      if st.hasSpeech ∧ st.silentFrames + 1 ≥ 10 then .silenceAfterSpeech
      else .silence)

/-! ## Chat history (`app/websocket/session.py`, `Session.save_history`)

`AppConfig.max_chat_history` is the constant 20 (config.py line 138; it is
never overridden).  `save_history` appends the user and assistant turns and
trims with the Python slice `history[-max:]`, which for `max = 0` would be
the whole list; the embedding mirrors that slice exactly. -/

structure ChatMsg where
  role : String
  content : String
deriving DecidableEq, Repr

def max_chat_history : Nat := 20

/-- Embeds `Session.save_history` (session.py lines 148-154). -/

def save_history (maxHistory : Nat) (history : List ChatMsg)
    (user_text assistant_text : String) : List ChatMsg :=
  let h := history ++ [⟨"user", user_text⟩, ⟨"assistant", assistant_text⟩]
  if maxHistory < h.length then
    -- Python `h[-maxHistory:]`: keeps the last `maxHistory` entries,
    -- except that `[-0:]` is the whole list.
    if maxHistory = 0 then h else h.drop (h.length - maxHistory)
  else h

/-- A whole sequence of `save_history` calls on a fresh session. -/

def run_save_history (maxHistory : Nat) (calls : List (String × String)) :
    List ChatMsg :=
  calls.foldl (fun h c => save_history maxHistory h c.1 c.2) []

/-- The untrimmed conversation: one user and one assistant entry per call. -/

def historyTurns (calls : List (String × String)) : List ChatMsg :=
  calls.foldr (fun c acc => ⟨"user", c.1⟩ :: ⟨"assistant", c.2⟩ :: acc) []

/-! ## Music search tool (`app/mcp/tools.py`,
`MCPToolRegistry._tool_search_vietnamese_music`, lines 160-174)

The tool strips the `song_name` argument, falls back to a stripped
`query` (Python `or` picks the first non-empty string), returns a
failure result before any HTTP request when both are empty, and clamps
`limit` with `max(1, min(int(raw_limit), 20))`, falling back to 5 on
`TypeError`/`ValueError`.  Only the part up to the outbound HTTP request
is embedded: `MusicAction.request q limit` records the effective query
and the limit the request would carry, `MusicAction.precondFail` is the
early `ok=False` return that issues no request.  Argument values for
`limit` are modelled as ints, strings or `None` (`PyVal`); `int()` of a
float, which truncates, is outside the model — the claim concerns
integer arguments. -/

/-- Python whitespace (`str.strip()` with no argument, regex `\s`). -/

def pyWs (c : Char) : Bool :=
  c == ' ' || c == '\t' || c == '\n' || c == '\r' || c == '\x0b' || c == '\x0c'

/-- Python `str.strip()`: remove whitespace from both ends. -/

def pyStrip (l : List Char) : List Char :=
  (l.dropWhile pyWs).rdropWhile pyWs

inductive PyVal where
  | pInt (n : ℤ)
  | pStr (s : String)
  | pNone
deriving DecidableEq, Repr

def digitsToNat (cs : List Char) : Nat :=
  cs.foldl (fun n c => 10 * n + (c.toNat - 48)) 0

/-- Python `int(str)`: optional sign then digits, surrounding whitespace
allowed (digit-group underscores are outside the model). -/

def parseIntString (s : String) : Option ℤ :=
  match pyStrip s.data with
  | '-' :: rest =>
      if rest ≠ [] ∧ rest.all Char.isDigit then some (-(digitsToNat rest : ℤ)) else none
  | '+' :: rest =>
      if rest ≠ [] ∧ rest.all Char.isDigit then some (digitsToNat rest : ℤ) else none
  | rest =>
      if rest ≠ [] ∧ rest.all Char.isDigit then some (digitsToNat rest : ℤ) else none

/-- Python `int(v)` for the modelled argument values: `None` raises
`TypeError`, a non-numeric string raises `ValueError`; both are `none`. -/

def pyToInt : PyVal → Option ℤ
  | .pInt n => some n
  | .pStr s => parseIntString s
  | .pNone => none

inductive MusicAction where
  | precondFail
  | request (q : String) (limit : ℤ)
deriving DecidableEq, Repr

/-- Embeds `_tool_search_vietnamese_music` (tools.py lines 160-174), up to the
HTTP request.  String-typed arguments are taken already `str()`-converted;
an absent argument arrives as `""` (resp. `none` for `limit`, where the
source default is the int 5). -/

def tool_search_vietnamese_music (song_name_arg query_arg : String)
    (limit_arg : Option PyVal) : MusicAction :=
  let song_name := pyStrip song_name_arg.data
  let query := if song_name = [] then pyStrip query_arg.data else song_name
  if query = [] then .precondFail
  else
    let raw_limit := limit_arg.getD (.pInt 5)
    let limit : ℤ :=
      match pyToInt raw_limit with
      | some n => max 1 (min n 20)
      | none => 5
    .request (String.mk query) limit

/-! ## Session object state and message dispatch
(`app/websocket/session.py`, `app/websocket/handler.py`)

`Session.__init__` (session.py lines 28-62) assigns the audio buffer, the
VAD counters, `is_speaking` and `aborted` — but never `is_idling`.  That
attribute is only ever assigned by `_handle_listen` (handler.py line 233)
and `_goodbye_and_idle` (line 178).  The embedding therefore represents
`is_idling` as `Option Bool`, `none` meaning "attribute not present";
reading it then is Python's `AttributeError`. -/

structure SessionState where
  pcmBuffer : List ℤ
  silentFrames : Nat
  speechFrames : Nat
  hasSpeech : Bool
  isSpeaking : Bool
  aborted : Bool
  isIdling : Option Bool
deriving DecidableEq, Repr

/-- Embeds `Session.__init__` (session.py lines 28-62): note `is_idling` absent. -/

def session_init : SessionState where
  pcmBuffer := []
  silentFrames := 0
  speechFrames := 0
  hasSpeech := false
  isSpeaking := false
  aborted := false
  isIdling := none

/-- Embeds `Session.reset_audio_buffer` (session.py lines 69-75). -/

def reset_audio_buffer (s : SessionState) : SessionState :=
  { s with
    pcmBuffer := []
    silentFrames := 0
    hasSpeech := false
    speechFrames := 0
    aborted := false }

/-- Embeds `Session.abort` (session.py lines 156-159). -/

def session_abort (s : SessionState) : SessionState :=
  { s with aborted := true, isSpeaking := false }

inductive TextMsg where
  | hello
  | listen (state : String) (mode : String)
  | abortMsg
  | mcp (op : String)
  | unknown (msgType : String)
deriving DecidableEq, Repr

/-- The session-state effect of one JSON text message (`_on_text` dispatch
with `_handle_hello` / `_handle_listen` / `_handle_abort` / `_handle_mcp`,
handler.py lines 86-316).  `hello`, `mcp` and unknown types only send
replies; `listen` with `start`/`detect` calls `reset_audio_buffer` and
assigns `is_idling = False` (it also zeroes the transport frame counter
and clears the pipeline-triggered flag, which live outside the session
object); `listen stop` may launch the pipeline but mutates no session
field; `abort` calls `Session.abort`. -/

def handle_text (s : SessionState) : TextMsg → SessionState
  | .listen state _mode =>
      if state = "start" ∨ state = "detect" then
        { reset_audio_buffer s with isIdling := some false }
      else s
  | .abortMsg => session_abort s
  | _ => s

def IDLE_TIMEOUT_FRAMES : Nat := 167

inductive BinaryAction where
  | noAction
  | triggerPipeline
  | scheduleGoodbye
deriving DecidableEq, Repr

/-- Embeds `_on_binary` (handler.py lines 119-158) after Opus decode and frame
counting: the VAD step and the dispatch that follows it.  `triggered`
says whether the session id is in `_pipeline_triggered`, `count` is the
incremented per-session frame counter.  The idle branch reads
`session.is_idling`; on a session where that attribute was never
assigned, Python raises `AttributeError`, embedded as `Except.error`. -/

def on_binary_dispatch (triggered : Bool) (count : Nat) (st : VadState)
    (rms : ℚ) (isIdling : Option Bool) :
    Except String (VadState × BinaryAction) :=
  if triggered then .ok (st, .noAction)
  else
    let r := check_vad st rms
    if r.2 = .silenceAfterSpeech then .ok (r.1, .triggerPipeline)
    else if ¬r.1.hasSpeech ∧ count ≥ IDLE_TIMEOUT_FRAMES then
      match isIdling with
      | none => .error "AttributeError: is_idling"
      | some true => .ok (r.1, .noAction)
      | some false => .ok (r.1, .scheduleGoodbye)
    else .ok (r.1, .noAction)

/-- VAD state after a run of decoded frames with the given RMS values. -/

def runVadFrames (st : VadState) (rmsList : List ℚ) : VadState :=
  rmsList.foldl (fun s r => (check_vad s r).1) st

/-! ## LLM streaming failover (`app/services/llm.py`,
`LLMService.chat_stream`, lines 29-83)

The generator walks the provider list; per provider it opens a stream and
reads chunks until the first truthy delta (`if delta:` — `None` and `""`
are falsy).  If the stream ends or raises first, the provider is skipped.
After the first truthy delta is yielded, the remaining truthy deltas are
yielded — but the whole per-provider body sits in one `try/except`, so an
exception raised *after* the commit also falls through to the next
provider, with the already-yielded deltas remaining part of the
generator's output.  When the loop exhausts all providers, exactly one
apology string is yielded.

A provider's stream is a `List StreamEvent`: chunks carrying an optional
delta, or the point where the stream raises (`err`); a provider whose
connection/`create` call raises is a stream starting with `err`. -/

inductive StreamEvent where
  | delta (content : Option String)
  | err
deriving DecidableEq, Repr

/-- Truthy content of a chunk (`chunk.choices[0].delta.content` when it
is neither `None` nor `""`). -/

def deltaContent : StreamEvent → Option String
  | .delta (some s) => if s = "" then none else some s
  | _ => none

/-- The read-until-first-non-empty-delta loop (llm.py lines 56-61); the
surrounding `try` turns an `err` into provider failure, as does stream
end with `first_chunk is None` (line 63). -/

def readFirstNonEmpty : List StreamEvent → Option (String × List StreamEvent)
  | [] => none
  | .err :: _ => none
  | .delta d :: rest =>
      match d with
      | some s => if s = "" then readFirstNonEmpty rest else some (s, rest)
      | none => readFirstNonEmpty rest

/-- The post-commit loop (llm.py lines 69-72): truthy deltas yielded
until stream end (`true` = completed without raising) or until the stream
raises (`false`). -/

def drainDeltas : List StreamEvent → List String × Bool
  | [] => ([], true)
  | .err :: _ => ([], false)
  | .delta d :: rest =>
      let r := drainDeltas rest
      match d with
      | some s => if s = "" then r else (s :: r.1, r.2)
      | none => r

def APOLOGY : String := "Xin lỗi, tất cả LLM đều không phản hồi."

/-- Embeds `LLMService.chat_stream` (llm.py lines 29-83): the full sequence of
strings the generator yields, given each provider's stream. -/

def chat_stream : List (List StreamEvent) → List String
  | [] => [APOLOGY]
  | p :: ps =>
    match readFirstNonEmpty p with
    | none => chat_stream ps
    | some (first, rest) =>
      let r := drainDeltas rest
      if r.2 then first :: r.1
      else first :: r.1 ++ chat_stream ps

/-- Events of a stream up to (excluding) the point where it raises. -/

def nonErrPrefix (p : List StreamEvent) : List StreamEvent :=
  p.takeWhile (fun e => e != .err)

/-- The truthy deltas of a stream segment. -/

def truthyDeltas (p : List StreamEvent) : List String :=
  p.filterMap deltaContent

/-- The claim's wording of `chat_stream`: a provider whose first read is
empty or raises is skipped; the first committed provider contributes its
first non-empty delta and all subsequent deltas, and the generator then
terminates; if every provider fails the generator yields exactly the
apology. -/

def specChatStreamClaim : List (List StreamEvent) → List String
  | [] => [APOLOGY]
  | p :: ps =>
    let committed := truthyDeltas (nonErrPrefix p)
    if committed.isEmpty then specChatStreamClaim ps
    else committed

/-- The amended wording: as the claim, except that when the committed
provider's stream raises after the commit, the generator does not
terminate — the deltas already yielded are followed by the output for the
remaining providers (possibly ending in the apology). -/

def specChatStreamAmended : List (List StreamEvent) → List String
  | [] => [APOLOGY]
  | p :: ps =>
    let committed := truthyDeltas (nonErrPrefix p)
    if committed.isEmpty then specChatStreamAmended ps
    else committed ++ (if StreamEvent.err ∈ p then specChatStreamAmended ps else [])

/-! ## Soft-chunk extraction (`app/services/pipeline.py`,
`ConversationPipeline._extract_soft_chunk`, lines 473-499)

The producer (pipeline.py lines 231-237) calls `_extract_soft_chunk`
whenever the sentence-free buffer has reached `CHUNK_HARD_LIMIT = 90`
characters.  The function scans `range(limit - 1, CHUNK_MIN_CHARS - 1,
-1)` — positions `limit-1` down to 28 inclusive — for a secondary
punctuation character, else takes `buffer.rfind(' ', 28, limit)`, and in
either case rejects the cut if the trailing-stripped chunk is shorter
than `CHUNK_MIN_CHARS = 28`.  Both descending scans share the helper
`scanDesc` below. -/

def CHUNK_MIN_CHARS : Nat := 28

def CHUNK_HARD_LIMIT : Nat := 90

/-- Membership in `CHUNK_PUNCT_BREAKS = frozenset(",，:：、")`. -/

def isPunctBreak (c : Char) : Bool :=
  c == ',' || c == '，' || c == ':' || c == '：' || c == '、'

/-- Python `str.rstrip()` on a character list. -/

def rstripL (l : List Char) : List Char := l.rdropWhile pyWs

/-- Python `str.lstrip()` on a character list. -/

def lstripL (l : List Char) : List Char := l.dropWhile pyWs

/-- Descending index scan: the largest position in
`[CHUNK_MIN_CHARS, start]` satisfying `p`, or `none`.  With
`p := punctuation at that index` this is the source's
`for i in range(limit - 1, CHUNK_MIN_CHARS - 1, -1)` loop; with
`p := space at that index` it is `buffer.rfind(' ', CHUNK_MIN_CHARS,
limit)` with `start = limit - 1`. -/

def scanDesc (p : Nat → Bool) : Nat → Option Nat
  | 0 => none
  | i + 1 =>
      if i + 1 < CHUNK_MIN_CHARS then none
      else if p (i + 1) then some (i + 1)
      else scanDesc p i

def scanPunct (buffer : List Char) (start : Nat) : Option Nat :=
  scanDesc (fun i => isPunctBreak (buffer.getD i 'x')) start

def scanSpace (buffer : List Char) (start : Nat) : Option Nat :=
  scanDesc (fun i => buffer.getD i 'x' == ' ') start

/-- Embeds `ConversationPipeline._extract_soft_chunk` (pipeline.py 473-499). -/

def extract_soft_chunk (buffer : List Char) : Option (List Char) × List Char :=
  if buffer.length < CHUNK_MIN_CHARS then (none, buffer)
  else
    let limit := min buffer.length CHUNK_HARD_LIMIT
    let cut : Option (List Char × List Char) :=
      match scanPunct buffer (limit - 1) with
      | some i => some (rstripL (buffer.take (i + 1)), lstripL (buffer.drop (i + 1)))
      | none =>
          match scanSpace buffer (limit - 1) with
          | none => none
          | some j => some (rstripL (buffer.take j), lstripL (buffer.drop (j + 1)))
    match cut with
    | none => (none, buffer)
    | some (chunk, remaining) =>
        if chunk.length < CHUNK_MIN_CHARS then (none, buffer)
        else (some chunk, remaining)

/-- The concrete buffer refuting C4: three letters then 87 spaces. -/

def c4Buffer : List Char := 'a' :: 'b' :: 'c' :: List.replicate 87 ' '

/-! ## Abort semantics in the streaming pipeline
(`app/services/pipeline.py`, `process` lines 142-145, `consumer` lines
251-291, `producer` lines 211-249)

`_stream_response` runs a producer (LLM deltas → sentences → TTS frames
pushed on an `asyncio.Queue`) and a consumer (queue → `on_tts_audio`)
concurrently; `process` finally runs `if not is_aborted(): await
on_tts_stop()`.  `is_aborted()` is `lambda: session.aborted`, sampled at
discrete polling points; the samples are abstracted as a function
`aborted : ℕ → Bool` of a global poll counter, and the claim's premise
"once `is_aborted()` returns true" as monotonicity of that function.
`should_stop_generation` (the shared music flag) is a second sampled
predicate `stop`. -/

inductive QueueItem where
  | frame (payload : ℕ)
  | marker (text : String)
deriving DecidableEq, Repr

/-- The consumer loop (pipeline.py lines 262-289): one `is_aborted() or
should_stop_generation()` poll per dequeued item (line 266); on a true
poll the item is drained without sending; otherwise markers invoke
`on_tts_sentence` and frames `on_tts_audio`.  Returns the frames passed
to `on_tts_audio`, each tagged with its poll index. -/

def consumerRun (aborted stop : ℕ → Bool) : ℕ → List QueueItem → List (ℕ × ℕ)
  | _, [] => []
  | t, item :: rest =>
    if aborted t || stop t then consumerRun aborted stop (t + 1) rest
    else
      match item with
      | .marker _ => consumerRun aborted stop (t + 1) rest
      | .frame f => (t, f) :: consumerRun aborted stop (t + 1) rest

/-- The producer's LLM loop (pipeline.py lines 215-218): one poll after
receiving each delta; on a true poll it breaks.  Returns the deltas
consumed into the response buffer. -/

def producerConsumed (aborted stop : ℕ → Bool) : ℕ → List String → List String
  | _, [] => []
  | t, d :: ds =>
    if aborted t || stop t then []
    else d :: producerConsumed aborted stop (t + 1) ds

/-- Embeds `if not is_aborted(): await on_tts_stop()` (pipeline.py 142-143). -/

def finalStopEmitted (abortedAtEnd : Bool) : Bool := !abortedAtEnd

/-- States that once `is_aborted()` returns true it stays true: within one run the
abort flag is only set (`Session.abort`), never cleared (clearing happens
in `reset_audio_buffer` on the next `listen start`). -/

def AbortMonotone (aborted : ℕ → Bool) : Prop :=
  ∀ i j, i ≤ j → aborted i = true → aborted j = true

/-! ## Fast intent detection (`app/services/intent.py`,
`IntentDetectorService.detect_fast`, lines 36-152)

`detect_fast` lower-cases the stripped input, tests substring containment
of the trigger and music token sets, and — when both hit — builds the
song name with `re.sub(r"\b(mở|mơ|phát|bật|nghe|cho\s+tôi|giúp\s+tôi|play|
bài\s+hát|bài|nhạc|music)\b", " ", lowered)` followed by whitespace
collapsing and punctuation trimming.  Note the substitution's token list:
it does NOT contain `mỡ`, `ca sĩ` or `playlist`, although the containment
check does.  The regex engine fragment needed here (alternation of
literal words, `\s+` gaps, surrounding word boundaries, left-to-right
non-overlapping `re.sub`) is embedded below. -/

/-- ASCII lower-casing (`str.lower()`).  The token sets contain only
lower-case characters; full Unicode case mapping (e.g. `Ở` → `ở`) is
outside the model. -/

def pyLowerChar (c : Char) : Char :=
  if 'A' ≤ c ∧ c ≤ 'Z' then Char.ofNat (c.toNat + 32) else c

/-- Python regex `\w` on `str`: ASCII alphanumerics, underscore, and —
for the texts this system handles — any non-ASCII character (every
non-ASCII character in the Vietnamese vocabulary is a letter). -/

def isWordChar (c : Char) : Bool :=
  c.isAlphanum || c == '_' || decide (128 ≤ c.toNat)

/-- One element of a compiled pattern: a literal character or `\s+`. -/

inductive PatElem where
  | lit (c : Char)
  | gap
deriving DecidableEq, Repr

/-- Match a pattern at the head of `s`, returning the remaining suffix.
`gap` (`\s+`) greedily takes one-or-more whitespace characters; no
backtracking is needed because every `gap` below is followed by a
letter. -/

def matchPat : List PatElem → List Char → Option (List Char)
  | [], s => some s
  | .lit c :: ps, x :: rest => if x = c then matchPat ps rest else none
  | .lit _ :: _, [] => none
  | .gap :: ps, x :: rest =>
      if pyWs x then matchPat ps (rest.dropWhile pyWs) else none
  | .gap :: _, [] => none

def litPat (s : String) : List PatElem := s.data.map PatElem.lit

/-- A two-word pattern `a\s+b`. -/

def gapPat (a b : String) : List PatElem :=
  a.data.map PatElem.lit ++ PatElem.gap :: b.data.map PatElem.lit

/-- Trailing `\b` after a pattern that ends in a word character: the
remainder must not start with a word character. -/

def boundaryOK : List Char → Bool
  | [] => true
  | c :: _ => !isWordChar c

/-- Try one alternative at the current position, including its trailing
boundary check (regex alternation backtracks across alternatives, so each
is tried in full, in order). -/

def tryPat (p : List PatElem) (s : List Char) : Option (List Char) :=
  match matchPat p s with
  | some r => if boundaryOK r then some r else none
  | none => none

def tryPats (pats : List (List PatElem)) (s : List Char) : Option (List Char) :=
  pats.findSome? (fun p => tryPat p s)

/-- Left-to-right non-overlapping `re.sub(pattern, " ", s)` with a
leading word-boundary requirement: a match may start only where the
previous character is not a word character (`prev = false`); every
pattern starts and ends with a letter, so after a replacement the scan
resumes with `prev = true` (the matched text ended in a letter of the
original string).  `fuel` bounds the iteration count; every step consumes
at least one character, so `s.length` fuel is exact for the pattern lists
used here (all alternatives start with a literal). -/

def subScanFuel (pats : List (List PatElem)) : Nat → Bool → List Char → List Char
  | 0, _, s => s
  | _ + 1, _, [] => []
  | fuel + 1, prev, c :: rest =>
    if prev then c :: subScanFuel pats fuel (isWordChar c) rest
    else
      match tryPats pats (c :: rest) with
      | some r => ' ' :: subScanFuel pats fuel true r
      | none => c :: subScanFuel pats fuel (isWordChar c) rest

def subTokens (pats : List (List PatElem)) (s : List Char) : List Char :=
  subScanFuel pats s.length false s

/-- Python `re.sub(r"\s+", " ", s)`: each maximal run of whitespace becomes a
single space.  `prevWs` tracks whether the previous character was part
of a run already replaced. -/

def collapseWsGo (prevWs : Bool) : List Char → List Char
  | [] => []
  | c :: rest =>
    if pyWs c then
      if prevWs then collapseWsGo true rest
      else ' ' :: collapseWsGo true rest
    else c :: collapseWsGo false rest

def collapseWs (s : List Char) : List Char := collapseWsGo false s

/-- Membership in the strip set of `.strip(" ,.!?\n\t")`. -/

def stripSetChar (c : Char) : Bool :=
  c == ' ' || c == ',' || c == '.' || c == '!' || c == '?' || c == '\n' || c == '\t'

/-- Python `str.strip(" ,.!?\n\t")`. -/

def pyStripSet (l : List Char) : List Char :=
  (l.dropWhile stripSetChar).rdropWhile stripSetChar

/-- The alternation of the song-name cleaning regex (intent.py line 145),
in source order. -/

def cleanPatterns : List (List PatElem) :=
  [litPat "mở", litPat "mơ", litPat "phát", litPat "bật", litPat "nghe",
   gapPat "cho" "tôi", gapPat "giúp" "tôi", litPat "play",
   gapPat "bài" "hát", litPat "bài", litPat "nhạc", litPat "music"]

/-- The token set the claim says is stripped: the full trigger set, the
full music set and the fillers — including `mỡ`, `ca sĩ` and `playlist`,
which the source's regex does not strip.  (Longer tokens are listed
before their prefixes so whole tokens are removed.) -/

def claimCleanPatterns : List (List PatElem) :=
  [litPat "mở", litPat "mơ", litPat "mỡ", litPat "phát", litPat "bật",
   litPat "nghe", litPat "playlist", litPat "play", litPat "nhạc",
   gapPat "bài" "hát", litPat "bài", gapPat "ca" "sĩ", litPat "music",
   gapPat "cho" "tôi", gapPat "giúp" "tôi"]

def trigger_words : List (List Char) :=
  ["mở".data, "mơ".data, "mỡ".data, "phát".data, "bật".data, "nghe".data,
   "play".data]

def music_words : List (List Char) :=
  ["nhạc".data, "bài".data, "bài hát".data, "ca sĩ".data, "playlist".data,
   "music".data]

def alarm_trigger_words : List (List Char) :=
  ["báo thức".data, "đặt báo thức".data, "hẹn giờ".data, "báo".data,
   "báo cho tôi".data]

/-- Python `any(w in lowered for w in ws)`. -/

def hasAny (ws : List (List Char)) (lowered : List Char) : Bool :=
  ws.any (fun w => decide (w <:+: lowered))

structure IntentCore where
  intent : String
  song_name : String
deriving DecidableEq, Repr

/-- The song name of the music branch (intent.py lines 144-151). -/

def songClean (pats : List (List PatElem)) (lowered : List Char) : List Char :=
  pyStripSet (collapseWs (subTokens pats lowered))

/-- Embeds `detect_fast` (intent.py lines 36-152), projected to the
`(intent, song_name)` fields of `IntentResult`.  The alarm branch's
`alarm_time`/`alarm_message` extraction (lines 66-139) is not modelled —
no claim concerns those fields — but the branch's intent decision is. -/

def detect_fast (user_text : List Char) : IntentCore :=
  let text := pyStrip user_text
  let lowered := text.map pyLowerChar
  let has_trigger := hasAny trigger_words lowered
  let has_music := hasAny music_words lowered
  if has_trigger && has_music then
    let cleaned := songClean cleanPatterns lowered
    { intent := "music",
      song_name := if cleaned = [] then "nhạc việt" else String.mk cleaned }
  else if hasAny alarm_trigger_words lowered then
    { intent := "alarm", song_name := "" }
  else
    { intent := "other", song_name := "" }

/-! ## Robot-voice state across synthesize calls (`app/services/tts.py`,
`TTSService.synthesize` lines 105-193, `_apply_voice_style` lines
325-366)

`_apply_voice_style` ring-modulates the chunk with a square-wave carrier
(`sign(sin(phase))`, zeros mapped to +1), runs a one-pole low-pass, and
cross-fades.  The carrier phase and filter state live on the *service
object* (`self._robot_phase`, `self._robot_lp_prev`, initialised once in
`__init__`, lines 60-61); `synthesize` never writes them, so they persist
not only across the chunks of one call but across calls.

The float DSP is idealised over exact numbers: the carrier phase is kept
in carrier *cycles* (`phase / 2π`, an exact rational — the advance per
sample is `mod_hz / sample_rate`), so `sign(sin(phase))` becomes a
decidable test on the fractional part; sample values and the filter
coefficient `alpha = dt / (rc + dt)`, `rc = 1 / (2π·lp_hz)`, are exact
reals (hence the `noncomputable` definitions).  Resampling to 24 kHz
happens before styling and is not modelled: chunks below are the
post-resample int16 samples.  Opus encoding is deterministic in the PCM
frame, so frames are compared as PCM. -/

structure RobotState where
  phaseCycles : ℚ
  lpPrev : ℝ

/-- The reset state assigned in `TTSService.__init__` (lines 60-61). -/

noncomputable def robotState0 : RobotState := ⟨0, 0⟩

/-- Carrier phase advance per sample, in cycles: `mod_hz / 24000`; for
the `robot` profile (95 Hz) this is 19/4800. -/

def ROBOT_INC : ℚ := 95 / 24000

/-- The `mix` of the `robot` profile (0.72). -/

noncomputable def ROBOT_MIX : ℝ := 72 / 100

/-- The coefficient `alpha = dt / (rc + dt)` for the `robot` profile (lp 3000 Hz) at
24 kHz (tts.py lines 351-353). -/

noncomputable def robotAlpha : ℝ :=
  (1 / 24000) / (1 / (2 * Real.pi * 3000) + 1 / 24000)

/-- The carrier `sign(sin(2π·t))` with zeros mapped to +1 (tts.py lines 346-347):
negative exactly when the fractional part of the cycle count is in
(1/2, 1). -/

def carrierQ (t : ℚ) : ℚ := if 1 / 2 < Int.fract t then -1 else 1

/-- Truncation toward zero (numpy `.astype(np.int16)` on a float). -/

noncomputable def truncR (x : ℝ) : ℤ := if 0 ≤ x then ⌊x⌋ else -⌊-x⌋

/-- Embeds `np.clip(out * 32768.0, -32768, 32767).astype(np.int16)`. -/

noncomputable def quantize16R (y : ℝ) : ℤ :=
  truncR (max (-32768) (min (y * 32768) 32767))

/-- The sequential one-pole low-pass (tts.py lines 355-360): returns the
filtered samples and the final `prev`. -/

noncomputable def lpRun (alpha : ℝ) (prev : ℝ) : List ℝ → List ℝ × ℝ
  | [] => ([], prev)
  | x :: xs =>
    let p := prev + alpha * (x - prev)
    let r := lpRun alpha p xs
    (p :: r.1, r.2)

/-- Embeds `TTSService._apply_voice_style` (tts.py lines 325-366) for an
enabled (robot-style) profile: empty chunks return early without
touching the state; otherwise ring-modulate, low-pass, cross-fade,
quantise, and store `phase = (phase[-1] + inc) % 2π` and the final
filter value. -/

noncomputable def styleChunk (alpha mix : ℝ) (inc : ℚ) (st : RobotState)
    (pcm : List ℤ) : List ℤ × RobotState :=
  if pcm = [] then (pcm, st)
  else
    let dry : List ℝ := pcm.map (fun s => (s : ℝ) / 32768)
    let wet : List ℝ :=
      dry.mapIdx (fun i d => d * ((carrierQ (st.phaseCycles + i * inc) : ℚ) : ℝ))
    let r := lpRun alpha st.lpPrev wet
    let out := List.zipWith (fun d y => (1 - mix) * d + mix * y) dry r.1
    (out.map quantize16R,
      ⟨Int.fract (st.phaseCycles + pcm.length * inc), r.2⟩)

/-- The styling performed by one `synthesize(text)` call (tts.py lines
138-152): each Piper chunk is styled through the carried service state;
the concatenated styled PCM is what gets framed and encoded.  The state
argument is `(self._robot_phase, self._robot_lp_prev)` as the call finds
them — `synthesize` performs no reset. -/

noncomputable def ttsStyleRun (alpha mix : ℝ) (inc : ℚ) (st : RobotState) :
    List (List ℤ) → List ℤ × RobotState
  | [] => ([], st)
  | c :: cs =>
    let r1 := styleChunk alpha mix inc st c
    let r2 := ttsStyleRun alpha mix inc r1.2 cs
    (r1.1 ++ r2.1, r2.2)

/-- Total sample count of a chunk list. -/

def totalSamples (cs : List (List ℤ)) : Nat := (cs.map List.length).sum

/-! ## Theorems -/

lemma save_history_eq_rtake (maxHistory : Nat) (h : 1 ≤ maxHistory)
    (history : List ChatMsg) (u a : String) :
    save_history maxHistory history u a =
      (history ++ [({ role := "user", content := u } : ChatMsg),
        { role := "assistant", content := a }]).rtake maxHistory := by
  unfold save_history List.rtake
  set l := history ++ [({ role := "user", content := u } : ChatMsg),
    { role := "assistant", content := a }] with hl
  by_cases hlen : maxHistory < l.length
  · have hne : maxHistory ≠ 0 := by omega
    simp [hlen, hne]
  · have hz : l.length - maxHistory = 0 := by omega
    simp [hlen, hz]

lemma rtake_append_absorb (n : Nat) (xs ys : List ChatMsg) :
    (xs.rtake n ++ ys).rtake n = (xs ++ ys).rtake n := by
  rw [List.rtake_eq_reverse_take_reverse, List.rtake_eq_reverse_take_reverse,
    List.rtake_eq_reverse_take_reverse]
  congr 1
  rw [List.reverse_append, List.reverse_reverse, List.reverse_append]
  rw [List.take_append_eq_append_take, List.take_append_eq_append_take]
  congr 1
  rw [List.take_take]
  congr 1
  omega

lemma run_save_history_go (maxHistory : Nat) (h : 1 ≤ maxHistory)
    (calls : List (String × String)) (h₀ : List ChatMsg) :
    calls.foldl (fun h c => save_history maxHistory h c.1 c.2) (h₀.rtake maxHistory) =
      (h₀ ++ historyTurns calls).rtake maxHistory := by
  induction calls generalizing h₀ with
  | nil => simp [historyTurns, List.rtake]
  | cons c cs ih =>
    simp only [List.foldl_cons]
    rw [save_history_eq_rtake maxHistory h, rtake_append_absorb]
    have := ih (h₀ ++ [({ role := "user", content := c.1 } : ChatMsg),
      { role := "assistant", content := c.2 }])
    rw [this]
    congr 1
    simp [historyTurns, List.append_assoc]

lemma run_save_history_eq (maxHistory : Nat) (h : 1 ≤ maxHistory)
    (calls : List (String × String)) :
    run_save_history maxHistory calls = (historyTurns calls).rtake maxHistory := by
  have := run_save_history_go maxHistory h calls []
  simpa [run_save_history, List.rtake] using this

lemma historyTurns_getLast (calls : List (String × String))
    (hmem : calls ≠ []) :
    ∃ u, (historyTurns calls).getLast? = some ⟨"assistant", u⟩ := by
  induction calls with
  | nil => exact absurd rfl hmem
  | cons x xs ih =>
    cases hxs : xs with
    | nil => exact ⟨x.2, by simp [historyTurns, hxs]⟩
    | cons y ys =>
      obtain ⟨u, hu⟩ := ih (by simp [hxs])
      refine ⟨u, ?_⟩
      rw [hxs] at hu
      simp only [historyTurns, List.foldr_cons] at hu ⊢
      rw [List.getLast?_cons_cons, List.getLast?_cons_cons] at *
      cases ys with
      | nil => simpa using hu
      | cons z zs => simpa [historyTurns] using hu

lemma getLast?_rtake (n : Nat) (l : List ChatMsg) (h : l.rtake (n + 1) ≠ []) :
    (l.rtake (n + 1)).getLast? = l.getLast? := by
  rw [List.rtake_eq_reverse_take_reverse] at h ⊢
  rw [List.getLast?_reverse, ← List.head?_reverse]
  cases hrev : l.reverse with
  | nil => simp [hrev] at h
  | cons x xs =>
    rw [List.take_succ_cons]
    simp

/-- C1: `check_vad` implements exactly the specified three-band state
machine on the frame's RMS: above 2500 it resets the silent counter,
increments the loud counter, latches `has_speech` at 8 loud frames and
returns speech; between 2000 and 2500 it resets the silent counter and
returns speech only when speech is confirmed; at or below 2000 it
increments the silent counter and returns `silence_after_speech` exactly
when speech is confirmed and 10 silent frames have accumulated. -/

theorem c1_check_vad_implements_spec (st : VadState) (rms : ℚ) :
    check_vad st rms = specVadStep st rms := by
  by_cases h1 : (2500 : ℚ) < rms
  · by_cases h2 : 8 ≤ st.speechFrames + 1 <;>
      simp [check_vad, specVadStep, SPEECH_THRESHOLD, SPEECH_FRAMES_NEEDED, h1, h2]
  · by_cases h3 : (2000 : ℚ) < rms
    · have h4 : rms ≤ 2500 := le_of_not_lt h1
      simp [check_vad, specVadStep, SPEECH_THRESHOLD, SILENCE_THRESHOLD, h1, h3, h4]
    · simp [check_vad, specVadStep, SPEECH_THRESHOLD, SILENCE_THRESHOLD,
        SILENCE_FRAMES_NEEDED, h1, h3]

/-- C5: for every sequence of `save_history` calls on a session (whose
`max_history` is the configured constant 20), the history is exactly the
most recent 20-entry suffix of the full conversation, its length never
exceeds `max_history`, the retained entries are a suffix of the full
conversation (oldest evicted first), and a non-empty history always ends
with an `assistant` entry. -/

theorem c5_save_history_invariant (calls : List (String × String)) (m : ChatMsg) :
    run_save_history max_chat_history calls =
        (historyTurns calls).rtake max_chat_history
    ∧ (run_save_history max_chat_history calls).length ≤ max_chat_history
    ∧ run_save_history max_chat_history calls <:+ historyTurns calls
    ∧ ((run_save_history max_chat_history calls).getLast? = some m →
        m.role = "assistant") := by
  have h1 : 1 ≤ max_chat_history := by norm_num [max_chat_history]
  have heq := run_save_history_eq max_chat_history h1 calls
  refine ⟨heq, ?_, ?_, ?_⟩
  · rw [heq, List.rtake]
    simp only [List.length_drop]
    omega
  · rw [heq, List.rtake]
    exact List.drop_suffix _ _
  · intro hm
    have hne : run_save_history max_chat_history calls ≠ [] := by
      intro habs
      rw [habs] at hm
      simp at hm
    have hcalls : calls ≠ [] := by
      intro habs
      rw [habs] at hne
      simp [run_save_history] at hne
    obtain ⟨u, hu⟩ := historyTurns_getLast calls hcalls
    have h20 : max_chat_history = 19 + 1 := by norm_num [max_chat_history]
    rw [heq, h20] at hm
    rw [heq, h20] at hne
    rw [getLast?_rtake 19 (historyTurns calls) hne, hu] at hm
    cases hm
    rfl

/-- C8: the effective query is the stripped `song_name` when non-empty,
else the stripped `query`; when both are empty the tool fails its
precondition without issuing any HTTP request; the limit actually used is
the given integer clamped to [1, 20], and 5 when `limit` is absent or not
convertible to an integer. -/

theorem c8_search_music_query_and_limit (sn q : String) (la : Option PyVal) :
    (tool_search_vietnamese_music sn q la = .precondFail ↔
      pyStrip sn.data = [] ∧ pyStrip q.data = [])
    ∧ (∀ eq lim, tool_search_vietnamese_music sn q la = .request eq lim →
        eq = String.mk (if pyStrip sn.data = [] then pyStrip q.data else pyStrip sn.data)
        ∧ 1 ≤ lim ∧ lim ≤ 20)
    ∧ (la = none → ∀ eq lim,
        tool_search_vietnamese_music sn q la = .request eq lim → lim = 5)
    ∧ (∀ v n, la = some v → pyToInt v = some n → ∀ eq lim,
        tool_search_vietnamese_music sn q la = .request eq lim →
        lim = max 1 (min n 20))
    ∧ (∀ v, la = some v → pyToInt v = none → ∀ eq lim,
        tool_search_vietnamese_music sn q la = .request eq lim → lim = 5) := by
  unfold tool_search_vietnamese_music
  by_cases hs : pyStrip sn.data = []
  · by_cases hq : pyStrip q.data = []
    · refine ⟨by simp [hs, hq], ?_, ?_, ?_, ?_⟩ <;> simp [hs, hq]
    · refine ⟨by simp [hs, hq], ?_, ?_, ?_, ?_⟩
      · intro eq lim heq
        simp only [hs, if_true, hq, if_neg hq] at heq ⊢
        cases hv : pyToInt (la.getD (.pInt 5)) with
        | none =>
          rw [hv] at heq
          cases heq
          refine ⟨rfl, by norm_num⟩
        | some n =>
          rw [hv] at heq
          cases heq
          refine ⟨rfl, le_max_left _ _, max_le (by norm_num) (min_le_right _ _)⟩
      · intro hla eq lim heq
        subst hla
        simp only [hs, if_true, if_neg hq, Option.getD_none, pyToInt] at heq
        cases heq
        norm_num
      · intro v n hla hv eq lim heq
        subst hla
        simp only [hs, if_true, if_neg hq, Option.getD_some, hv] at heq
        cases heq
        rfl
      · intro v hla hv eq lim heq
        subst hla
        simp only [hs, if_true, if_neg hq, Option.getD_some, hv] at heq
        cases heq
        rfl
  · refine ⟨by simp [hs], ?_, ?_, ?_, ?_⟩
    · intro eq lim heq
      simp only [if_neg hs] at heq ⊢
      cases hv : pyToInt (la.getD (.pInt 5)) with
      | none =>
        rw [hv] at heq
        cases heq
        refine ⟨rfl, by norm_num⟩
      | some n =>
        rw [hv] at heq
        cases heq
        refine ⟨rfl, le_max_left _ _, max_le (by norm_num) (min_le_right _ _)⟩
    · intro hla eq lim heq
      subst hla
      simp only [if_neg hs, Option.getD_none, pyToInt] at heq
      cases heq
      norm_num
    · intro v n hla hv eq lim heq
      subst hla
      simp only [if_neg hs, Option.getD_some, hv] at heq
      cases heq
      rfl
    · intro v hla hv eq lim heq
      subst hla
      simp only [if_neg hs, Option.getD_some, hv] at heq
      cases heq
      rfl

/-- Witness for C8: a string-valued `"7"` limit converts and clamps to 7. -/

theorem c8_search_music_query_and_limit_witness :
    tool_search_vietnamese_music "Nơi này có anh" "" (some (.pStr "7")) =
      .request "Nơi này có anh" 7 ∧ (7 : ℤ) = max 1 (min 7 20) :=
  ⟨by decide,
    (c8_search_music_query_and_limit "Nơi này có anh" "" (some (.pStr "7"))).2.2.2.1
      (.pStr "7") 7 rfl (by decide) "Nơi này có anh" 7 (by decide)⟩

lemma runVadFrames_silent (n k : Nat) :
    runVadFrames ⟨n, 0, false⟩ (List.replicate k 0) = ⟨n + k, 0, false⟩ := by
  induction k generalizing n with
  | zero => simp [runVadFrames]
  | succ k ih =>
    rw [List.replicate_succ]
    simp only [runVadFrames, List.foldl_cons]
    have hstep : (check_vad ⟨n, 0, false⟩ 0).1 = ⟨n + 1, 0, false⟩ := by
      norm_num [check_vad, SPEECH_THRESHOLD, SILENCE_THRESHOLD]
    rw [hstep]
    have := ih (n + 1)
    simp only [runVadFrames] at this
    rw [this]
    congr 1
    omega

/-- C9: on a freshly created session that never received a `listen`
message, 167 silent frames drive the received-frame count to the idle
timeout with `has_speech` still false, and the idle-timeout branch then
raises `AttributeError` on reading `session.is_idling` instead of
completing and scheduling the goodbye; had the attribute been assigned
(as `listen start` does), the same state schedules the goodbye. -/

theorem c9_idle_branch_attribute_error :
    runVadFrames ⟨0, 0, false⟩ (List.replicate 166 0) = ⟨166, 0, false⟩
    ∧ session_init.isIdling = none
    ∧ on_binary_dispatch false 167 ⟨166, 0, false⟩ 0 session_init.isIdling =
        .error "AttributeError: is_idling"
    ∧ on_binary_dispatch false 167 ⟨166, 0, false⟩ 0 (some false) =
        .ok (⟨167, 0, false⟩, .scheduleGoodbye) := by
  refine ⟨?_, rfl, ?_, ?_⟩
  · simpa using runVadFrames_silent 0 166
  · rfl
  · rfl

/-- C10: a `listen` message with state `start` or `detect` resets the
session's audio state — empty PCM buffer, zeroed VAD counters, cleared
`has_speech` — and clears `aborted` (via `reset_audio_buffer`) while
assigning `is_idling = False`; no other text message clears a set abort
flag. -/

theorem c10_listen_start_clears_abort (s : SessionState) (m : TextMsg) :
    (∀ state mode, m = .listen state mode → (state = "start" ∨ state = "detect") →
      handle_text s m = { s with
        pcmBuffer := []
        silentFrames := 0
        speechFrames := 0
        hasSpeech := false
        aborted := false
        isIdling := some false })
    ∧ ((∀ state mode, m = .listen state mode → state ≠ "start" ∧ state ≠ "detect") →
        s.aborted = true → (handle_text s m).aborted = true) := by
  constructor
  · intro state mode hm hstate
    subst hm
    simp [handle_text, hstate, reset_audio_buffer]
  · intro hnotstart habort
    cases m with
    | listen state mode =>
      obtain ⟨h1, h2⟩ := hnotstart state mode rfl
      simp [handle_text, h1, h2, habort]
    | hello => simpa [handle_text] using habort
    | abortMsg => simp [handle_text, session_abort]
    | mcp op => simpa [handle_text] using habort
    | unknown t => simpa [handle_text] using habort

/-- Witness for C10: an aborted session stays aborted through `hello`,
and `listen start` resets it. -/

theorem c10_listen_start_clears_abort_witness :
    (handle_text { session_init with aborted := true } TextMsg.hello).aborted = true
    ∧ handle_text { session_init with aborted := true } (.listen "start" "auto") =
        { session_init with isIdling := some false } :=
  ⟨(c10_listen_start_clears_abort { session_init with aborted := true }
        TextMsg.hello).2 (fun _ _ h => nomatch h) rfl,
    ((c10_listen_start_clears_abort { session_init with aborted := true }
        (.listen "start" "auto")).1 "start" "auto" rfl (Or.inl rfl)).trans (by decide)⟩

lemma drainDeltas_spec (p : List StreamEvent) :
    (drainDeltas p).1 = truthyDeltas (nonErrPrefix p)
    ∧ ((drainDeltas p).2 = true ↔ StreamEvent.err ∉ p) := by
  induction p with
  | nil => simp [drainDeltas, truthyDeltas, nonErrPrefix]
  | cons e rest ih =>
    cases e with
    | err => simp [drainDeltas, truthyDeltas, nonErrPrefix]
    | delta d =>
      have hne : (StreamEvent.delta d != StreamEvent.err) = true := by
        cases d <;> rfl
      cases d with
      | none =>
        simpa [drainDeltas, truthyDeltas, nonErrPrefix, deltaContent, hne]
          using ih
      | some s =>
        by_cases hs : s = "" <;>
          simpa [drainDeltas, truthyDeltas, nonErrPrefix, deltaContent, hne, hs]
            using ih

lemma readFirstNonEmpty_none_spec (p : List StreamEvent) :
    readFirstNonEmpty p = none → truthyDeltas (nonErrPrefix p) = [] := by
  induction p with
  | nil => intro _; rfl
  | cons e rest ih =>
    cases e with
    | err => intro _; rfl
    | delta d =>
      cases d with
      | none =>
        intro h
        simp only [readFirstNonEmpty] at h
        simpa [truthyDeltas, nonErrPrefix, deltaContent] using ih h
      | some s =>
        by_cases hs : s = ""
        · intro h
          simp only [readFirstNonEmpty, hs, if_true] at h
          simpa [truthyDeltas, nonErrPrefix, deltaContent, hs] using ih h
        · intro h
          simp [readFirstNonEmpty, hs] at h

lemma readFirstNonEmpty_some_spec (p : List StreamEvent) (first : String)
    (rest : List StreamEvent) :
    readFirstNonEmpty p = some (first, rest) →
    truthyDeltas (nonErrPrefix p) = first :: truthyDeltas (nonErrPrefix rest)
    ∧ (StreamEvent.err ∈ p ↔ StreamEvent.err ∈ rest) := by
  induction p with
  | nil => intro h; simp [readFirstNonEmpty] at h
  | cons e tail ih =>
    cases e with
    | err => intro h; simp [readFirstNonEmpty] at h
    | delta d =>
      cases d with
      | none =>
        intro h
        simp only [readFirstNonEmpty] at h
        obtain ⟨h1, h2⟩ := ih h
        exact ⟨by simpa [truthyDeltas, nonErrPrefix, deltaContent] using h1,
          by simpa using h2⟩
      | some s =>
        by_cases hs : s = ""
        · intro h
          simp only [readFirstNonEmpty, hs, if_true] at h
          obtain ⟨h1, h2⟩ := ih h
          exact ⟨by simpa [truthyDeltas, nonErrPrefix, deltaContent, hs] using h1,
            by simpa using h2⟩
        · intro h
          simp only [readFirstNonEmpty, hs, if_false] at h
          cases h
          constructor
          · simp [truthyDeltas, nonErrPrefix, deltaContent, hs]
          · simp

/-- C2-counterexample: a provider that yields one non-empty delta and
then raises.  The code falls through to the (exhausted) provider list and
appends the apology after the already-yielded delta, while the claim
says the generator commits to that provider and terminates after its
deltas (and says the apology is yielded alone, only when every provider's
first read fails). -/

theorem c2_counterexample_post_commit_error :
    chat_stream [[.delta (some "a"), .err]] = ["a", APOLOGY]
    ∧ specChatStreamClaim [[.delta (some "a"), .err]] = ["a"]
    ∧ chat_stream [[.delta (some "a"), .err]] ≠
        specChatStreamClaim [[.delta (some "a"), .err]] := by
  refine ⟨rfl, rfl, ?_⟩
  intro h
  rw [show chat_stream [[.delta (some "a"), .err]] = ["a", APOLOGY] from rfl,
    show specChatStreamClaim [[.delta (some "a"), .err]] = ["a"] from rfl] at h
  exact absurd h (by simp)

/-- C2 (amended): `chat_stream` tries providers in order, committing to
the first whose stream has a non-empty delta before raising; that
provider contributes its first non-empty delta and all subsequent
non-empty deltas; a provider whose first read is empty or raises is
skipped; if every provider fails this way the generator yields exactly
the apology string; and when the committed provider's stream raises
after the commit, its yielded deltas are followed by the output for the
remaining providers instead of terminating the stream. -/

theorem c2_chat_stream_failover (ps : List (List StreamEvent)) :
    chat_stream ps = specChatStreamAmended ps := by
  induction ps with
  | nil => rfl
  | cons p ps ih =>
    cases h : readFirstNonEmpty p with
    | none =>
      have hempty := readFirstNonEmpty_none_spec p h
      simp only [chat_stream, h, specChatStreamAmended, hempty, List.isEmpty_nil,
        if_true]
      exact ih
    | some fr =>
      obtain ⟨first, rest⟩ := fr
      obtain ⟨h1, h2⟩ := readFirstNonEmpty_some_spec p first rest h
      obtain ⟨hd1, hd2⟩ := drainDeltas_spec rest
      simp only [chat_stream, h, specChatStreamAmended, h1, List.isEmpty_cons,
        if_false, Bool.false_eq_true]
      by_cases herr : StreamEvent.err ∈ rest
      · have hc : StreamEvent.err ∈ p := h2.mpr herr
        have hclean : (drainDeltas rest).2 = false := by
          rcases hb : (drainDeltas rest).2 with _ | _
          · rfl
          · exact absurd herr (hd2.mp hb)
        simp [hd1, hclean, herr, hc, ih]
      · have hc : StreamEvent.err ∉ p := fun hin => herr (h2.mp hin)
        have hclean : (drainDeltas rest).2 = true := hd2.mpr herr
        simp [hd1, hclean, herr, hc]

lemma scanDesc_none_iff (p : Nat → Bool) (start : Nat) :
    scanDesc p start = none ↔
      ∀ i, CHUNK_MIN_CHARS ≤ i → i ≤ start → p i = false := by
  induction start with
  | zero =>
    simp only [scanDesc, true_iff]
    intro i h1 h2
    exact absurd (h1.trans h2) (by norm_num [CHUNK_MIN_CHARS])
  | succ k ih =>
    by_cases hlt : k + 1 < CHUNK_MIN_CHARS
    · simp only [scanDesc, hlt, if_true, true_iff]
      intro i h1 h2
      omega
    · by_cases hp : p (k + 1)
      · simp only [scanDesc, if_neg hlt, if_pos hp]
        constructor
        · intro h; exact absurd h (by simp)
        · intro h
          have := h (k + 1) (by omega) (by omega)
          rw [hp] at this
          exact absurd this (by simp)
      · simp only [scanDesc, if_neg hlt, if_neg hp]
        rw [ih]
        constructor
        · intro h i h1 h2
          rcases Nat.lt_or_ge i (k + 1) with hik | hik
          · exact h i h1 (by omega)
          · have : i = k + 1 := by omega
            subst this
            simpa using hp
        · intro h i h1 h2
          exact h i h1 (by omega)

lemma scanDesc_some (p : Nat → Bool) (start i : Nat) :
    scanDesc p start = some i →
    CHUNK_MIN_CHARS ≤ i ∧ i ≤ start ∧ p i = true
    ∧ ∀ j, i < j → j ≤ start → p j = false := by
  induction start with
  | zero => intro h; simp [scanDesc] at h
  | succ k ih =>
    intro h
    by_cases hlt : k + 1 < CHUNK_MIN_CHARS
    · simp [scanDesc, hlt] at h
    · by_cases hp : p (k + 1)
      · simp only [scanDesc, if_neg hlt, if_pos hp, Option.some_inj] at h
        subst h
        exact ⟨by omega, le_refl _, hp, fun j hj1 hj2 => by omega⟩
      · simp only [scanDesc, if_neg hlt, if_neg hp] at h
        obtain ⟨h1, h2, h3, h4⟩ := ih h
        refine ⟨h1, by omega, h3, fun j hj1 hj2 => ?_⟩
        rcases Nat.lt_or_ge j (k + 1) with hjk | hjk
        · exact h4 j hj1 (by omega)
        · have : j = k + 1 := by omega
          subst this
          simpa using hp

lemma rstripL_eq_self_of_last (l : List Char) (c : Char)
    (hlast : l.getLast? = some c) (hc : pyWs c = false) : rstripL l = l := by
  rw [rstripL, List.rdropWhile_eq_self_iff]
  intro hl
  have h2 : l.getLast? = some (l.getLast hl) := List.getLast?_eq_getLast l hl
  rw [hlast] at h2
  have : l.getLast hl = c := (Option.some_inj.mp h2).symm
  simp [this, hc]

lemma getLast?_take_succ (l : List Char) (i : Nat) (hi : i < l.length) :
    (l.take (i + 1)).getLast? = some (l.getD i 'x') := by
  have htake : l.take (i + 1) = l.take i ++ [l.getD i 'x'] := by
    rw [List.take_succ]
    congr 1
    simp [List.getD, List.getElem?_eq_getElem hi]
  rw [htake]
  simp

/-- C4-counterexample: a 90-character sentence-free buffer with no
secondary punctuation anywhere and its rightmost space at position 89
(≥ 28).  The claim says the producer cuts at that rightmost space; the
code instead rejects the cut (the stripped prefix `"abc"` is shorter
than 28) and keeps buffering. -/

theorem c4_counterexample_space_cut_rejected :
    c4Buffer.length = 90
    ∧ scanPunct c4Buffer 89 = none
    ∧ scanSpace c4Buffer 89 = some 89
    ∧ rstripL (c4Buffer.take 89) = ['a', 'b', 'c']
    ∧ extract_soft_chunk c4Buffer = (none, c4Buffer) := by
  refine ⟨by decide, by decide, by decide, by decide, by decide⟩

/-- C4 (amended): for a buffer at the 90-character hard limit, the cut
scans positions 89 down to 28 (right to left) for a secondary
punctuation character and cuts just after the rightmost one — such a
chunk always survives the length check; if there is none it cuts at the
rightmost space at a position in [28, 89], *provided* the prefix before
the space still has at least 28 characters after trailing-whitespace
strip, and otherwise keeps buffering; if there is no such space either
it keeps buffering; and every chunk it returns is at least 28 characters
long. -/

theorem c4_soft_chunk_cut (buffer : List Char)
    (hlen : CHUNK_HARD_LIMIT ≤ buffer.length) :
    (∀ i, scanPunct buffer 89 = some i →
      extract_soft_chunk buffer =
          (some (rstripL (buffer.take (i + 1))), lstripL (buffer.drop (i + 1)))
      ∧ 28 ≤ i ∧ i ≤ 89 ∧ isPunctBreak (buffer.getD i 'x') = true
      ∧ (∀ j, i < j → j ≤ 89 → isPunctBreak (buffer.getD j 'x') = false))
    ∧ (scanPunct buffer 89 = none →
      (∀ i, 28 ≤ i → i ≤ 89 → isPunctBreak (buffer.getD i 'x') = false)
      ∧ (∀ j, scanSpace buffer 89 = some j →
          buffer.getD j 'x' = ' ' ∧ 28 ≤ j ∧ j ≤ 89
          ∧ (∀ k, j < k → k ≤ 89 → buffer.getD k 'x' ≠ ' ')
          ∧ extract_soft_chunk buffer =
              (if (rstripL (buffer.take j)).length < 28 then (none, buffer)
               else (some (rstripL (buffer.take j)), lstripL (buffer.drop (j + 1)))))
      ∧ (scanSpace buffer 89 = none →
          (∀ j, 28 ≤ j → j ≤ 89 → buffer.getD j 'x' ≠ ' ')
          ∧ extract_soft_chunk buffer = (none, buffer)))
    ∧ (∀ c r, extract_soft_chunk buffer = (some c, r) → 28 ≤ c.length) := by
  have hlen' : 90 ≤ buffer.length := by
    simpa [CHUNK_HARD_LIMIT] using hlen
  have hmin : ¬buffer.length < CHUNK_MIN_CHARS := by
    simp only [CHUNK_MIN_CHARS]
    omega
  have heq : extract_soft_chunk buffer =
      (match scanPunct buffer 89 with
      | some i =>
          if (rstripL (buffer.take (i + 1))).length < CHUNK_MIN_CHARS then
            ((none : Option (List Char)), buffer)
          else (some (rstripL (buffer.take (i + 1))), lstripL (buffer.drop (i + 1)))
      | none =>
          match scanSpace buffer 89 with
          | none => (none, buffer)
          | some j =>
              if (rstripL (buffer.take j)).length < CHUNK_MIN_CHARS then (none, buffer)
              else (some (rstripL (buffer.take j)), lstripL (buffer.drop (j + 1)))) := by
    have hlimit : min buffer.length CHUNK_HARD_LIMIT - 1 = 89 := by
      simp only [CHUNK_HARD_LIMIT]
      omega
    simp only [extract_soft_chunk, if_neg hmin, hlimit]
    cases scanPunct buffer 89 with
    | some i => rfl
    | none =>
      cases scanSpace buffer 89 with
      | some j => rfl
      | none => rfl
  refine ⟨?_, ?_, ?_⟩
  · intro i hscan
    obtain ⟨h1, h2, h3, h4⟩ := scanDesc_some _ 89 i hscan
    have hi_lt : i < buffer.length := by omega
    -- the chunk ends in the punctuation character, so rstrip is a no-op
    have hlast := getLast?_take_succ buffer i hi_lt
    have hcs := h3
    simp only [isPunctBreak, Bool.or_eq_true, beq_iff_eq] at hcs
    have hlast_ws : pyWs (buffer.getD i 'x') = false := by
      rcases hcs with ((((h | h) | h) | h) | h) <;> rw [h] <;> rfl
    have hstrip : rstripL (buffer.take (i + 1)) = buffer.take (i + 1) :=
      rstripL_eq_self_of_last _ _ hlast hlast_ws
    have hchunklen : (rstripL (buffer.take (i + 1))).length = i + 1 := by
      rw [hstrip, List.length_take]
      omega
    have hguard : ¬(rstripL (buffer.take (i + 1))).length < CHUNK_MIN_CHARS := by
      rw [hchunklen]
      simp only [CHUNK_MIN_CHARS] at h1 ⊢
      omega
    refine ⟨?_, by simpa [CHUNK_MIN_CHARS] using h1, h2, h3, h4⟩
    rw [heq, hscan]
    show (if (rstripL (buffer.take (i + 1))).length < CHUNK_MIN_CHARS then
        ((none : Option (List Char)), buffer)
      else (some (rstripL (buffer.take (i + 1))), lstripL (buffer.drop (i + 1)))) = _
    rw [if_neg hguard]
  · intro hnone
    have hall := (scanDesc_none_iff _ 89).mp hnone
    refine ⟨fun i h1 h2 => hall i (by simpa [CHUNK_MIN_CHARS] using h1) h2, ?_, ?_⟩
    · intro j hspace
      obtain ⟨h1, h2, h3, h4⟩ := scanDesc_some _ 89 j hspace
      refine ⟨by simpa [beq_iff_eq] using h3,
        by simpa [CHUNK_MIN_CHARS] using h1, h2, ?_, ?_⟩
      · intro k hk1 hk2
        have := h4 k hk1 hk2
        simpa [beq_iff_eq] using this
      · rw [heq, hnone, hspace]
        rfl
    · intro hsnone
      have hsall := (scanDesc_none_iff _ 89).mp hsnone
      refine ⟨?_, ?_⟩
      · intro j h1 h2
        have := hsall j (by simpa [CHUNK_MIN_CHARS] using h1) h2
        simpa [beq_iff_eq] using this
      · rw [heq, hnone, hsnone]
  · have hguard_imp : ∀ (ch rem : List Char) (c r : List Char),
        (if ch.length < CHUNK_MIN_CHARS then ((none : Option (List Char)), buffer)
         else (some ch, rem)) = (some c, r) → 28 ≤ c.length := by
      intro ch rem c r hcr
      by_cases hg : ch.length < CHUNK_MIN_CHARS
      · rw [if_pos hg] at hcr
        exact absurd (congrArg Prod.fst hcr) (by simp)
      · rw [if_neg hg] at hcr
        have hc' : ch = c := Option.some_inj.mp (congrArg Prod.fst hcr)
        subst hc'
        simp only [CHUNK_MIN_CHARS] at hg
        omega
    intro c r hcr
    rw [heq] at hcr
    cases hp : scanPunct buffer 89 with
    | some i =>
      rw [hp] at hcr
      exact hguard_imp _ _ c r hcr
    | none =>
      rw [hp] at hcr
      cases hs : scanSpace buffer 89 with
      | none =>
        rw [hs] at hcr
        exact absurd (congrArg Prod.fst hcr) (by simp)
      | some j =>
        rw [hs] at hcr
        exact hguard_imp _ _ c r hcr

/-- Witness for C4 (amended) at a concrete buffer: 60 letters, a comma
at position 60, then 29 more letters (length 90). -/

theorem c4_soft_chunk_cut_witness :
    extract_soft_chunk (List.replicate 60 'h' ++ ',' :: List.replicate 29 'h') =
      (some (List.replicate 60 'h' ++ [',']), List.replicate 29 'h') :=
  ((c4_soft_chunk_cut (List.replicate 60 'h' ++ ',' :: List.replicate 29 'h')
      (by decide)).1 60 (by decide)).1.trans (by decide)

lemma consumerRun_polls_false (aborted stop : ℕ → Bool) (items : List QueueItem)
    (t0 : ℕ) :
    ∀ q ∈ consumerRun aborted stop t0 items, aborted q.1 = false := by
  induction items generalizing t0 with
  | nil => intro q hq; simp [consumerRun] at hq
  | cons item rest ih =>
    intro q hq
    simp only [consumerRun] at hq
    by_cases hpoll : aborted t0 || stop t0
    · rw [if_pos hpoll] at hq
      exact ih (t0 + 1) q hq
    · rw [if_neg hpoll] at hq
      have habort : aborted t0 = false := by
        rcases hb : aborted t0 with _ | _
        · rfl
        · exact absurd (by simp [hb]) hpoll
      cases item with
      | marker s => exact ih (t0 + 1) q hq
      | frame f =>
        rcases List.mem_cons.mp hq with hq | hq
        · rw [hq]; exact habort
        · exact ih (t0 + 1) q hq

lemma producerConsumed_polls_false (aborted stop : ℕ → Bool)
    (deltas : List String) (t0 : ℕ) :
    ∀ n, n < (producerConsumed aborted stop t0 deltas).length →
      aborted (t0 + n) = false := by
  induction deltas generalizing t0 with
  | nil => intro n hn; simp [producerConsumed] at hn
  | cons d ds ih =>
    intro n hn
    simp only [producerConsumed] at hn
    by_cases hpoll : aborted t0 || stop t0
    · rw [if_pos hpoll] at hn
      simp at hn
    · rw [if_neg hpoll] at hn
      have habort : aborted t0 = false := by
        rcases hb : aborted t0 with _ | _
        · rfl
        · exact absurd (by simp [hb]) hpoll
      cases n with
      | zero => simpa using habort
      | succ m =>
        have hm : m < (producerConsumed aborted stop (t0 + 1) ds).length := by
          simpa using hn
        have := ih (t0 + 1) m hm
        simpa [Nat.add_assoc, Nat.add_comm 1 m] using this

/-- C6: in `process`, once `is_aborted()` returns true (with the flag
never cleared during the run), every frame delivered through
`on_tts_audio` was sent at a poll strictly before the abort — the
consumer drains later queue items without sending; the producer's
consumed-delta prefix likewise ends before the abort; and the final
`on_tts_stop` callback is not invoked for that run. -/

theorem c6_abort_suppresses_output (aborted stop : ℕ → Bool)
    (hmono : AbortMonotone aborted) (k : ℕ) (hk : aborted k = true)
    (t0 tEnd : ℕ) (items : List QueueItem) (deltas : List String)
    (hEnd : k ≤ tEnd) :
    (∀ q ∈ consumerRun aborted stop t0 items, aborted q.1 = false ∧ q.1 < k)
    ∧ (∀ n, n < (producerConsumed aborted stop t0 deltas).length →
        aborted (t0 + n) = false ∧ t0 + n < k)
    ∧ finalStopEmitted (aborted tEnd) = false := by
  have hlt : ∀ t, aborted t = false → t < k := by
    intro t ht
    by_contra hge
    have : aborted t = true := hmono k t (by omega) hk
    rw [ht] at this
    exact absurd this (by simp)
  refine ⟨?_, ?_, ?_⟩
  · intro q hq
    have := consumerRun_polls_false aborted stop items t0 q hq
    exact ⟨this, hlt _ this⟩
  · intro n hn
    have := producerConsumed_polls_false aborted stop deltas t0 n hn
    exact ⟨this, hlt _ this⟩
  · have : aborted tEnd = true := hmono k tEnd hEnd hk
    simp [finalStopEmitted, this]

/-- Witness for C6: abort becomes true at poll 2 of a 4-item queue. -/

theorem c6_abort_suppresses_output_witness :
    consumerRun (fun t => decide (2 ≤ t)) (fun _ => false) 0
        [.frame 10, .frame 11, .frame 12, .marker "s"] = [(0, 10), (1, 11)]
    ∧ finalStopEmitted ((fun t => decide (2 ≤ t)) 3) = false :=
  ⟨by decide,
    (c6_abort_suppresses_output (fun t => decide (2 ≤ t)) (fun _ => false)
      (fun i j hij hi => by
        simp only [decide_eq_true_eq] at hi ⊢
        omega)
      2 (by decide) 0 3 [.frame 10, .frame 11, .frame 12, .marker "s"]
      ["x", "y"] (by decide)).2.2⟩

/-- C7-counterexample: the input `"mỡ ca sĩ"` hits the trigger set (via
`mỡ`) and the music set (via `ca sĩ`), so the intent is music; but the
cleaning regex strips neither `mỡ` nor `ca sĩ`, so the returned song
name is the input itself — while stripping the claim's full token set
would leave the empty string, for which the claim prescribes the song
name `"nhạc việt"`. -/

theorem c7_counterexample_unstripped_tokens :
    detect_fast "mỡ ca sĩ".data =
        { intent := "music", song_name := "mỡ ca sĩ" }
    ∧ songClean claimCleanPatterns "mỡ ca sĩ".data = []
    ∧ ("mỡ ca sĩ" : String) ≠ "nhạc việt" := by
  refine ⟨by decide, by decide, by decide⟩

/-- C7 (amended): `detect_fast` returns intent `music` exactly when the
lowercased stripped input contains a trigger word and a music word; the
song name is then the input with only the tokens of the source's
substitution — {mở, mơ, phát, bật, nghe, play, bài hát, bài, nhạc,
music} plus the fillers `cho tôi`, `giúp tôi`, but not {mỡ, ca sĩ,
playlist} — stripped at word boundaries, whitespace collapsed and
surrounding punctuation trimmed, defaulting to `"nhạc việt"` when the
stripped string is empty. -/

theorem c7_detect_fast_music (user_text : List Char) :
    ((detect_fast user_text).intent = "music" ↔
      (hasAny trigger_words ((pyStrip user_text).map pyLowerChar) = true
        ∧ hasAny music_words ((pyStrip user_text).map pyLowerChar) = true))
    ∧ ((detect_fast user_text).intent = "music" →
      (detect_fast user_text).song_name =
        (if songClean cleanPatterns ((pyStrip user_text).map pyLowerChar) = []
         then "nhạc việt"
         else String.mk
           (songClean cleanPatterns ((pyStrip user_text).map pyLowerChar)))) := by
  set lowered := (pyStrip user_text).map pyLowerChar with hlow
  by_cases ht : hasAny trigger_words lowered = true
  · by_cases hm : hasAny music_words lowered = true
    · constructor
      · simp [detect_fast, ht, hm]
      · intro _
        simp [detect_fast, ht, hm]
    · have hmm : hasAny music_words lowered = false := by
        rcases hb : hasAny music_words lowered with _ | _
        · rfl
        · exact absurd hb hm
      constructor
      · constructor
        · intro habs
          by_cases ha : hasAny alarm_trigger_words lowered = true <;>
            simp [detect_fast, ht, hmm, ha] at habs
        · intro ⟨_, habs⟩
          exact absurd habs hm
      · intro habs
        by_cases ha : hasAny alarm_trigger_words lowered = true <;>
          simp [detect_fast, ht, hmm, ha] at habs
  · have htt : hasAny trigger_words lowered = false := by
      rcases hb : hasAny trigger_words lowered with _ | _
      · rfl
      · exact absurd hb ht
    constructor
    · constructor
      · intro habs
        by_cases ha : hasAny alarm_trigger_words lowered = true <;>
          simp [detect_fast, htt, ha] at habs
      · intro ⟨habs, _⟩
        exact absurd habs ht
    · intro habs
      by_cases ha : hasAny alarm_trigger_words lowered = true <;>
        simp [detect_fast, htt, ha] at habs

/-- Witness for C7 (amended) at `"mở bài nơi này có anh"`. -/

theorem c7_detect_fast_music_witness :
    (detect_fast "mở bài nơi này có anh".data).intent = "music"
    ∧ (detect_fast "mở bài nơi này có anh".data).song_name = "nơi này có anh" :=
  ⟨((c7_detect_fast_music "mở bài nơi này có anh".data).1).mpr
      ⟨by decide, by decide⟩,
    ((c7_detect_fast_music "mở bài nơi này có anh".data).2 (by decide)).trans
      (by decide)⟩

lemma fract_fract_add (x : ℚ) (y : ℚ) :
    Int.fract (Int.fract x + y) = Int.fract (x + y) := by
  have h : Int.fract x + y = x + y - (⌊x⌋ : ℚ) := by
    rw [Int.fract]
    ring
  rw [h, Int.fract_sub_int]

lemma styleChunk_phase_of_ne (alpha mix : ℝ) (inc : ℚ) (st : RobotState)
    (pcm : List ℤ) (hc : pcm ≠ []) :
    (styleChunk alpha mix inc st pcm).2.phaseCycles =
      Int.fract (st.phaseCycles + pcm.length * inc) := by
  rw [styleChunk, if_neg hc]

lemma styleChunk_state_of_nil (alpha mix : ℝ) (inc : ℚ) (st : RobotState) :
    (styleChunk alpha mix inc st []).2 = st := by
  rw [styleChunk, if_pos rfl]

lemma ttsStyleRun_append (alpha mix : ℝ) (inc : ℚ) (st : RobotState)
    (cs₁ cs₂ : List (List ℤ)) :
    ttsStyleRun alpha mix inc st (cs₁ ++ cs₂) =
      ((ttsStyleRun alpha mix inc st cs₁).1 ++
        (ttsStyleRun alpha mix inc (ttsStyleRun alpha mix inc st cs₁).2 cs₂).1,
       (ttsStyleRun alpha mix inc (ttsStyleRun alpha mix inc st cs₁).2 cs₂).2) := by
  induction cs₁ generalizing st with
  | nil => simp [ttsStyleRun]
  | cons c cs ih =>
    show ttsStyleRun alpha mix inc st (c :: (cs ++ cs₂)) = _
    show (let r1 := styleChunk alpha mix inc st c;
      let r2 := ttsStyleRun alpha mix inc r1.2 (cs ++ cs₂);
      (r1.1 ++ r2.1, r2.2)) = _
    simp only
    rw [ih]
    show (_ ++ (_ ++ _), _) = _
    simp only [ttsStyleRun]
    rw [List.append_assoc]

/-- C3-counterexample: synthesizing a single one-sample chunk from the
reset state leaves the service's carrier phase at 19/4800 of a cycle —
not 0 — and `synthesize` performs no reset, so the next call starts from
that state, contradicting the claimed per-call reset. -/

theorem c3_counterexample_state_not_reset :
    (ttsStyleRun robotAlpha ROBOT_MIX ROBOT_INC robotState0 [[0]]).2.phaseCycles =
        19 / 4800
    ∧ ((19 : ℚ) / 4800 ≠ 0)
    ∧ (ttsStyleRun robotAlpha ROBOT_MIX ROBOT_INC robotState0 [[0]]).2.phaseCycles ≠
        robotState0.phaseCycles := by
  have h1 : (ttsStyleRun robotAlpha ROBOT_MIX ROBOT_INC robotState0 [[0]]).2.phaseCycles =
      19 / 4800 := by
    show (styleChunk robotAlpha ROBOT_MIX ROBOT_INC robotState0 [0]).2.phaseCycles =
      19 / 4800
    rw [styleChunk, if_neg (by simp)]
    show Int.fract ((robotState0.phaseCycles + ([(0 : ℤ)].length : ℕ) * ROBOT_INC)) =
      19 / 4800
    have : robotState0.phaseCycles + (([(0 : ℤ)].length : ℕ) : ℚ) * ROBOT_INC =
        19 / 4800 := by
      norm_num [robotState0, ROBOT_INC]
    rw [this, Int.fract_eq_self.mpr (by norm_num)]
  refine ⟨h1, by norm_num, ?_⟩
  rw [h1]
  norm_num [robotState0]

/-- C3 (amended): the carrier phase and one-pole low-pass state persist
across successive PCM chunks within a `synthesize(text)` call — chunk
lists compose through the carried state — and are *not* reset between
calls: `synthesize` leaves the service state at the accumulated value,
the next call starts from it, and the carrier phase entering any point
of the stream is the fractional accumulated phase of all previously
styled samples.  Consequently the first frame of a repeated
`synthesize(text)` with the same text is not in general identical to the
first call's. -/

theorem c3_robot_state_persists (alpha mix : ℝ) (inc : ℚ) (st : RobotState)
    (cs₁ cs₂ : List (List ℤ)) (h0 : 0 ≤ st.phaseCycles) (h1 : st.phaseCycles < 1) :
    ttsStyleRun alpha mix inc st (cs₁ ++ cs₂) =
      ((ttsStyleRun alpha mix inc st cs₁).1 ++
        (ttsStyleRun alpha mix inc (ttsStyleRun alpha mix inc st cs₁).2 cs₂).1,
       (ttsStyleRun alpha mix inc (ttsStyleRun alpha mix inc st cs₁).2 cs₂).2)
    ∧ (ttsStyleRun alpha mix inc st cs₁).2.phaseCycles =
        Int.fract (st.phaseCycles + totalSamples cs₁ * inc) := by
  refine ⟨ttsStyleRun_append alpha mix inc st cs₁ cs₂, ?_⟩
  induction cs₁ generalizing st with
  | nil =>
    show st.phaseCycles =
      Int.fract (st.phaseCycles + (totalSamples ([] : List (List ℤ)) : ℚ) * inc)
    have h : (totalSamples ([] : List (List ℤ)) : ℚ) = 0 := by
      simp [totalSamples]
    rw [h, zero_mul, add_zero, Int.fract_eq_self.mpr ⟨h0, h1⟩]
  | cons c cs ih =>
    show (ttsStyleRun alpha mix inc (styleChunk alpha mix inc st c).2 cs).2.phaseCycles = _
    by_cases hc : c = []
    · rw [hc, styleChunk_state_of_nil, ih st h0 h1]
      congr 2
      simp [totalSamples, hc]
    · have hphase := styleChunk_phase_of_ne alpha mix inc st c hc
      have h0' : 0 ≤ (styleChunk alpha mix inc st c).2.phaseCycles := by
        rw [hphase]
        exact Int.fract_nonneg _
      have h1' : (styleChunk alpha mix inc st c).2.phaseCycles < 1 := by
        rw [hphase]
        exact Int.fract_lt_one _
      rw [ih _ h0' h1', hphase, fract_fract_add]
      congr 1
      simp only [totalSamples, List.map_cons, List.sum_cons, Nat.cast_add]
      ring

/-- Witness for C3 (amended) at a concrete run. -/

theorem c3_robot_state_persists_witness :
    (ttsStyleRun 1 1 ROBOT_INC ⟨0, 0⟩ [[0], [0]]).2.phaseCycles =
      Int.fract ((0 : ℚ) + totalSamples [[0], [0]] * ROBOT_INC) :=
  (c3_robot_state_persists 1 1 ROBOT_INC ⟨0, 0⟩ [[0], [0]] []
    (by norm_num) (by norm_num)).2

/-- Witness for C5 at a concrete call sequence. -/

theorem c5_save_history_invariant_witness :
    (run_save_history max_chat_history [("hi", "chào")]).getLast? =
        some { role := "assistant", content := "chào" } ∧
    ({ role := "assistant", content := "chào" } : ChatMsg).role = "assistant" :=
  ⟨by decide,
    (c5_save_history_invariant [("hi", "chào")]
      { role := "assistant", content := "chào" }).2.2.2 (by decide)⟩

end Xiaozhi
